import Mathlib

/-!
# Verification of `bkrs2json.py`

A shallow embedding of the bkrs.info DSL-to-JSON converter, together with
theorems settling the specification claims about it.  Text is modelled as
`List Char` (Python `str` is a sequence of Unicode code points); machine
integers are `Nat`; fallible code returns `Except`/`Option`.

Layout:
* character classes and basic text utilities;
* the precompiled-regex scanners (`EXAMPLES_REGEX`, `TAGS_REGEX`,
  `MEANINGS_REGEX`) as explicit left-to-right scanning functions;
* the language classifier `is_mainly_russian`;
* the entry normalizer `process_entry`;
* the tokenizer/grouper `parse_dsl_file` and driver `parse_directory`;
* the serializer (`write_entry_to_json` shapes) and a JSON reader used to
  state the round-trip property;
* the claim theorems.
-/

deriving instance DecidableEq for Except

namespace Bkrs

/-- Python's notion of whitespace (`str.strip`, `str.isspace`, regex `\s`
for text patterns): ASCII whitespace, the information separators, and the
Unicode space characters. -/
def pyIsSpace (c : Char) : Bool :=
  (0x09 ≤ c.toNat && c.toNat ≤ 0x0D) ||
  (0x1C ≤ c.toNat && c.toNat ≤ 0x1F) ||
  c.toNat == 0x20 || c.toNat == 0x85 || c.toNat == 0xA0 || c.toNat == 0x1680 ||
  (0x2000 ≤ c.toNat && c.toNat ≤ 0x200A) ||
  c.toNat == 0x2028 || c.toNat == 0x2029 || c.toNat == 0x202F ||
  c.toNat == 0x205F || c.toNat == 0x3000

/-- Python `str.strip()` on a list of code points. -/
def trimChars (s : List Char) : List Char :=
  ((s.dropWhile pyIsSpace).reverse.dropWhile pyIsSpace).reverse

/-- Python `str.strip()` on a string (`line.strip()` in the source). -/
def pyStrip (s : String) : String :=
  String.mk (trimChars s.toList)

/-- Python `sep.join(xs)` for lists of code points (`' '.join(entry_lines[2:])`). -/
def sepJoin (sep : List Char) : List (List Char) → List Char
  | [] => []
  | [x] => x
  | x :: y :: xs => x ++ sep ++ sepJoin sep (y :: xs)

/-- A code point in the Cyrillic block `U+0400`–`U+04FF`
(`RUSSIAN_CHARS_REGEX`). -/
def isRussianChar (c : Char) : Bool :=
  0x400 ≤ c.toNat && c.toNat ≤ 0x4FF

/-- An ASCII Latin letter (`LATIN_CHARS_REGEX`, `[a-zA-Z]`). -/
def isLatinChar (c : Char) : Bool :=
  (0x41 ≤ c.toNat && c.toNat ≤ 0x5A) || (0x61 ≤ c.toNat && c.toNat ≤ 0x7A)

/-- Source `len(RUSSIAN_CHARS_REGEX.findall(meaning))`. -/
def russianCount (s : String) : Nat :=
  (s.toList.filter isRussianChar).length

/-- Source `len(LATIN_CHARS_REGEX.findall(meaning))`. -/
def latinCount (s : String) : Nat :=
  (s.toList.filter isLatinChar).length

/-- Source `meaning.startswith(('I', 'V'))`. -/
def startsWithIV (s : String) : Bool :=
  match s.toList with
  | c :: _ => c == 'I' || c == 'V'
  | [] => false

/-- The language classifier `is_mainly_russian` (source lines 80–94).
The float test `russian_chars / total_letters > 0.1` is modelled by the
exact comparison `total_letters < 10 * russian_chars`, which agrees with
the IEEE double comparison for every count realisable in a string. -/
def is_mainly_russian (meaning : String) : Bool :=
  if startsWithIV meaning then
    true
  else
    let russian_chars := russianCount meaning
    let latin_chars := latinCount meaning
    let total_letters := russian_chars + latin_chars
    if 0 < total_letters then
      decide (total_letters < 10 * russian_chars)
    else
      false

/-! ## The precompiled-regex scanners

`re.sub` and `re.findall` scan left to right, taking at each position the
leftmost match and continuing after its end.  The patterns of the source
are simple enough to realise as explicit scanning functions; each is
written with a fuel argument so it is structural (and hence evaluates in
the kernel), with the wrapper passing fuel equal to the input length,
which is sufficient because every step consumes at least one character. -/

/-- After an opening `[ex]`, drop the (non-greedy) block up to and
including the nearest `[/ex]`; `none` when no closer follows, in which
case the pattern `\[ex].*?\[/ex]` has no match starting here. -/
def dropToExClose : List Char → Option (List Char)
  | [] => none
  | c :: rest =>
    if List.isPrefixOf "[/ex]".toList (c :: rest) then some (rest.drop 4)
    else dropToExClose rest

/-- Fueled body of `EXAMPLES_REGEX.sub('', ·)` for `\[ex].*?\[/ex]`. -/
def removeExamplesF : Nat → List Char → List Char
  | 0, s => s
  | _ + 1, [] => []
  | fuel + 1, c :: rest =>
    if List.isPrefixOf "[ex]".toList (c :: rest) then
      match dropToExClose ((c :: rest).drop 4) with
      | some rest2 => removeExamplesF fuel rest2
      | none => c :: removeExamplesF fuel rest
    else c :: removeExamplesF fuel rest

/-- Source `EXAMPLES_REGEX.sub('', content)` (line 55). -/
def removeExamples (s : List Char) : List Char :=
  removeExamplesF s.length s

/-- The twelve literal markers matched by
`TAGS_REGEX = re.compile(r'\[/?(?:c|p|ref|b|i|\*)\]')`.  The set is
prefix-free, so at any position at most one of them matches. -/
def tagMarkers : List (List Char) :=
  ["[c]", "[/c]", "[p]", "[/p]", "[ref]", "[/ref]",
   "[b]", "[/b]", "[i]", "[/i]", "[*]", "[/*]"].map String.toList

/-- Fueled body of `TAGS_REGEX.sub('', ·)`. -/
def removeTagsF : Nat → List Char → List Char
  | 0, s => s
  | _ + 1, [] => []
  | fuel + 1, c :: rest =>
    match tagMarkers.find? (fun t => List.isPrefixOf t (c :: rest)) with
    | some t => removeTagsF fuel ((c :: rest).drop t.length)
    | none => c :: removeTagsF fuel rest

/-- Source `TAGS_REGEX.sub('', s)` (lines 51 and 56). -/
def removeTags (s : List Char) : List Char :=
  removeTagsF s.length s

/-- Match the opening marker `\[m\d?\]` at the head: `[m]`, or `[m` then a
single decimal digit then `]`.  Returns the text after the marker. -/
def matchMOpen : List Char → Option (List Char)
  | '[' :: 'm' :: ']' :: rest => some rest
  | '[' :: 'm' :: d :: ']' :: rest => if d.isDigit then some rest else none
  | _ => none

/-- From a position after an opening meaning marker, capture the
(non-greedy) `.*?` up to the nearest `[/m]`; returns the capture and the
text after the closer. -/
def findMClose : List Char → Option (List Char × List Char)
  | [] => none
  | c :: rest =>
    if List.isPrefixOf "[/m]".toList (c :: rest) then some ([], rest.drop 3)
    else
      match findMClose rest with
      | some (cap, r) => some (c :: cap, r)
      | none => none

/-- Fueled body of `MEANINGS_REGEX.findall` for `\[m\d?\](.*?)\[/m\]`:
captures in order of appearance, continuing after each match; a position
whose opening marker has no later closer is skipped by one character,
exactly as the regex engine advances. -/
def findAllMeaningsF : Nat → List Char → List (List Char)
  | 0, _ => []
  | _ + 1, [] => []
  | fuel + 1, c :: rest =>
    match matchMOpen (c :: rest) with
    | some afterOpen =>
      match findMClose afterOpen with
      | some (cap, r) => cap :: findAllMeaningsF fuel r
      | none => findAllMeaningsF fuel rest
    | none => findAllMeaningsF fuel rest

/-- Source `MEANINGS_REGEX.findall(content)` (line 59). -/
def findAllMeanings (s : List Char) : List (List Char) :=
  findAllMeaningsF s.length s

/-- Fueled body of Python `str.replace(old, new)`: leftmost,
non-overlapping, scanning left to right.  (`old` is never empty at the
call sites.) -/
def replaceAllF (old new : List Char) : Nat → List Char → List Char
  | 0, s => s
  | _ + 1, [] => []
  | fuel + 1, c :: rest =>
    if List.isPrefixOf old (c :: rest) then
      new ++ replaceAllF old new fuel ((c :: rest).drop old.length)
    else c :: replaceAllF old new fuel rest

/-- Python `s.replace(old, new)`. -/
def replaceAll (old new s : List Char) : List Char :=
  replaceAllF old new s.length s

/-- Fueled body of `re.sub(r'\s+', ' ', ·)`: each maximal whitespace run
becomes a single space. -/
def collapseWsF : Nat → List Char → List Char
  | 0, s => s
  | _ + 1, [] => []
  | fuel + 1, c :: rest =>
    if pyIsSpace c then ' ' :: collapseWsF fuel (rest.dropWhile pyIsSpace)
    else c :: collapseWsF fuel rest

/-- Source `re.sub(r'\s+', ' ', s)` (line 63). -/
def collapseWs (s : List Char) : List Char :=
  collapseWsF s.length s

/-- The per-meaning cleaning of source lines 63–65:
`re.sub(r'\s+', ' ', meaning.replace('\\[', '[').replace('\\]', ']').replace('\"', '"')).strip()`.
Note that the Python literal `'\"'` denotes the single character `"`, so
the third `replace` substitutes `"` for `"` — it is the identity, not an
unescaping of backslash-quote. -/
def cleanMeaning (meaning : List Char) : List Char :=
  trimChars (collapseWs
    (replaceAll ['"'] ['"']
      (replaceAll ['\\', ']'] [']']
        (replaceAll ['\\', '['] ['['] meaning))))

/-! ## The entry normalizer `process_entry` -/

/-- One serialized output record, in one of the two configured shapes
(source lines 70–77): the default single-key mapping
`{headword: [pinyin, meanings]}` or the flat alt object
`{"word": …, "pinyin": …, "meanings": …}`. -/
inductive OutputRecord where
  | default (headword pinyin : String) (meanings : List String)
  | alt (word pinyin : String) (meanings : List String)
deriving DecidableEq

/-- The headword carried by a record (the key of the default shape, the
`"word"` field of the alt shape). -/
def OutputRecord.headword : OutputRecord → String
  | .default h _ _ => h
  | .alt w _ _ => w

/-- The pinyin string carried by a record. -/
def OutputRecord.pinyin : OutputRecord → String
  | .default _ p _ => p
  | .alt _ p _ => p

/-- The ordered meanings list carried by a record. -/
def OutputRecord.meanings : OutputRecord → List String
  | .default _ _ m => m
  | .alt _ _ m => m

/-- Source lines 54–59: join the body lines with single spaces, remove
example blocks, remove inline tags, and extract the meaning candidates:
`[m.strip() for m in MEANINGS_REGEX.findall(content) if m.strip()]`. -/
def extract_meanings (body : List (List Char)) : List (List Char) :=
  (findAllMeanings (removeTags (removeExamples (sepJoin [' '] body)))).filterMap
    (fun m => let t := trimChars m; if t.isEmpty then none else some t)

/-- The kept-and-cleaned meanings of source lines 62–67: keep the
candidates classified as mainly Russian, then clean each. -/
def cleaned_meanings (body : List (List Char)) : List (List Char) :=
  ((extract_meanings body).filter
      (fun m => is_mainly_russian (String.mk m))).map cleanMeaning

/-- The entry normalizer `process_entry` (source lines 47–78).  The
unconditional subscripts `entry_lines[0]` and `entry_lines[1]` are
modelled by `Except`: a list with fewer than two lines raises
`IndexError`.  Returns `.ok none` when the cleaned meanings list is empty
(the entry is discarded), else `.ok (some record)` in the shape selected
by `alt_format`. -/
def process_entry (entry_lines : List String) (alt_format : Bool) :
    Except String (Option OutputRecord) :=
  match entry_lines with
  | [] => .error "IndexError: list index out of range"
  | [_] => .error "IndexError: list index out of range"
  | l0 :: l1 :: rest =>
    let headword := pyStrip l0
    let pinyin := String.mk (removeTags (pyStrip l1).toList)
    let cleaned := cleaned_meanings (rest.map String.toList)
    if cleaned.isEmpty then .ok none
    else .ok (some (if alt_format then
      .alt headword pinyin (cleaned.map String.mk)
    else
      .default headword pinyin (cleaned.map String.mk)))

/-! ## The tokenizer/grouper and the driver -/

/-- A line consisting entirely of one or more CJK Unified Ideographs
(`CHINESE_CHARS_REGEX.match`, `^[一-鿿]+$`). -/
def isChineseLine (s : String) : Bool :=
  !s.toList.isEmpty && s.toList.all (fun c => 0x4E00 ≤ c.toNat && c.toNat ≤ 0x9FFF)

/-- One decoded input file: the lines that decode successfully, and
whether a UTF-16 decode error occurs after them (decoding is streamed, so
a failure can interrupt the line iteration midway). -/
structure DslFile where
  lines : List String
  decodeError : Bool
deriving DecidableEq

/-- The grouping rule of source lines 24–43, by itself: strip each line,
skip empty lines, start a new group at each Chinese-only line (flushing
the accumulated group, if any), append other lines to the current group,
and flush the final group at end of input.  `g` is the group accumulated
so far. -/
def groupLines : List String → List String → List (List String)
  | [], g => if g.isEmpty then [] else [g]
  | l :: rest, g =>
    let line := pyStrip l
    if line.toList.isEmpty then groupLines rest g
    else if isChineseLine line then
      (if g.isEmpty then [] else [g]) ++ groupLines rest [line]
    else groupLines rest (g ++ [line])

/-- The groups a file's decoded lines produce, with the 3-line metadata
header skipped. -/
def fileGroups (lines : List String) : List (List String) :=
  groupLines (lines.drop 3) []

/-- Result of scanning a file's lines inside the generator: either the
scan ran to end of input (emitted records plus the still-accumulated
group), or a `process_entry` exception escaped the generator and the
file's remaining entries are abandoned. -/
inductive ScanOut where
  | ok (acc : List OutputRecord) (group : List String)
  | failed (acc : List OutputRecord)
deriving DecidableEq

/-- The fused scan of source lines 24–37: group lines and process each
flushed group, accumulating the records the generator yields. -/
def scanLines (alt : Bool) : List String → List String → List OutputRecord → ScanOut
  | [], g, acc => .ok acc g
  | l :: rest, g, acc =>
    let line := pyStrip l
    if line.toList.isEmpty then scanLines alt rest g acc
    else if isChineseLine line then
      if g.isEmpty then scanLines alt rest [line] acc
      else
        match process_entry g alt with
        | .error _ => .failed acc
        | .ok none => scanLines alt rest [line] acc
        | .ok (some e) => scanLines alt rest [line] (acc ++ [e])
    else scanLines alt rest (g ++ [line]) acc

/-- Source `parse_dsl_file` (lines 14–45) as the list of records the
generator yields for one file.  The first three lines are skipped.  If a
decode error interrupts the stream, the records yielded before it stand
and the pending group is never flushed; likewise a `process_entry`
exception abandons the rest of the file (it is caught by the driver's
per-file handler).  Otherwise the final group, if any, is flushed. -/
def parse_dsl_file (f : DslFile) (alt : Bool) : List OutputRecord :=
  match scanLines alt (f.lines.drop 3) [] [] with
  | .failed acc => acc
  | .ok acc g =>
    if f.decodeError then acc
    else if g.isEmpty then acc
    else
      match process_entry g alt with
      | .error _ => acc
      | .ok none => acc
      | .ok (some e) => acc ++ [e]

/-- Source `parse_directory` (lines 102–127) as the ordered sequence of
records written to the output array: files in discovery order, each
contributing its own records; per-file errors are isolated by the
`except` handlers and never disturb other files. -/
def parse_directory (files : List DslFile) (alt : Bool) : List OutputRecord :=
  (files.map (fun f => parse_dsl_file f alt)).flatten

/-- The record, if any, one flushed group contributes: `process_entry`
with a raised exception contributing nothing. -/
def entryOf (alt : Bool) (g : List String) : Option OutputRecord :=
  match process_entry g alt with
  | .ok r => r
  | .error _ => none

/-- Whether `process_entry` raises on a group. -/
def entryFails (alt : Bool) (g : List String) : Bool :=
  match process_entry g alt with
  | .error _ => true
  | .ok _ => false

/-- The records emitted strictly before end of input (no final flush):
what a file contributes when a decode error interrupts the stream. -/
def scanRecords (alt : Bool) (ls : List String) : List OutputRecord :=
  match scanLines alt ls [] [] with
  | .ok acc _ => acc
  | .failed acc => acc

/-- Whether `pat` occurs as a contiguous substring. -/
def containsSub (pat : List Char) : List Char → Bool
  | [] => pat.isEmpty
  | c :: rest => List.isPrefixOf pat (c :: rest) || containsSub pat rest

/-- End-of-file handling of a finished scan when no decode error occurred:
flush the pending group, a `process_entry` exception contributing
nothing beyond the records already emitted. -/
def flushRecords (alt : Bool) : ScanOut → List OutputRecord
  | .failed a => a
  | .ok a fin =>
    if fin.isEmpty then a
    else
      match process_entry fin alt with
      | .error _ => a
      | .ok none => a
      | .ok (some e) => a ++ [e]

/-! ## The serializer

`parse_directory` writes `'[\n'`, then each record via
`write_entry_to_json` — `json.dump(entry, json_file, ensure_ascii=False,
indent=2)` — preceded by `',\n'` for every record but the first, then
`'\n]'`.  The functions below reproduce that text exactly for the two
record shapes.  `NormalizedEntry` is the data a record carries. -/

/-- The data carried into serialization: headword, cleaned pinyin, and the
ordered kept-and-cleaned meanings. -/
structure NormalizedEntry where
  headword : String
  pinyin : String
  meanings : List String

/-- Lowercase hexadecimal digit, as Python's `'\\u%04x'` formatting. -/
def hexDig (n : Nat) : Char :=
  if n < 10 then Char.ofNat (48 + n) else Char.ofNat (87 + n)

/-- Python `json.dump`'s escaping of one character with `ensure_ascii=False`:
backslash and double quote get a backslash, the five short control
escapes are used where they exist, other control characters become
`\u00XX`, and everything else (non-ASCII included) is written literally. -/
def escChar (c : Char) : List Char :=
  if c = '\\' then ['\\', '\\']
  else if c = '"' then ['\\', '"']
  else if c = Char.ofNat 8 then ['\\', 'b']
  else if c = Char.ofNat 12 then ['\\', 'f']
  else if c = '\n' then ['\\', 'n']
  else if c = '\r' then ['\\', 'r']
  else if c = '\t' then ['\\', 't']
  else if c.toNat < 32 then
    ['\\', 'u', '0', '0', hexDig (c.toNat / 16), hexDig (c.toNat % 16)]
  else [c]

/-- Escape every character of a string body. -/
def escapeChars (s : List Char) : List Char :=
  (s.map escChar).flatten

/-- A JSON string literal: quote, escaped body, quote. -/
def quoteStr (s : List Char) : List Char :=
  '"' :: (escapeChars s ++ ['"'])

/-- The indentation prefix at nesting level `n` for `indent=2`. -/
def ind (n : Nat) : List Char :=
  List.replicate (2 * n) ' '

/-- Python `json.dump` text of a list of strings at nesting level `lvl`:
`[]` when empty, else one item per line, comma-separated, each indented
one level deeper, with the closing bracket at level `lvl`. -/
def dumpStrList (lvl : Nat) (xs : List (List Char)) : List Char :=
  match xs with
  | [] => ['[', ']']
  | x :: xs2 =>
    ['[', '\n'] ++ ind (lvl + 1) ++ quoteStr x
      ++ ((xs2.map (fun s => [',', '\n'] ++ ind (lvl + 1) ++ quoteStr s)).flatten
      ++ (['\n'] ++ ind lvl ++ [']']))

/-- Python `json.dump(entry, ·, ensure_ascii=False, indent=2)` for one record in
the configured shape (source lines 70–77 and 100). -/
def dumpRecord (alt : Bool) (e : NormalizedEntry) : List Char :=
  if alt then
    ['{', '\n'] ++ ind 1 ++ quoteStr "word".toList ++ [':', ' ']
      ++ quoteStr e.headword.toList ++ [',', '\n'] ++ ind 1
      ++ quoteStr "pinyin".toList ++ [':', ' '] ++ quoteStr e.pinyin.toList
      ++ [',', '\n'] ++ ind 1 ++ quoteStr "meanings".toList ++ [':', ' ']
      ++ dumpStrList 1 (e.meanings.map String.toList) ++ ['\n', '}']
  else
    ['{', '\n'] ++ ind 1 ++ quoteStr e.headword.toList ++ [':', ' ', '[', '\n']
      ++ ind 2 ++ quoteStr e.pinyin.toList ++ [',', '\n'] ++ ind 2
      ++ dumpStrList 2 (e.meanings.map String.toList) ++ ['\n']
      ++ ind 1 ++ [']', '\n', '}']

/-- The whole output document (source lines 96–125): `'[\n'`, the records
separated by `',\n'`, then `'\n]'`. -/
def writeDoc (alt : Bool) (entries : List NormalizedEntry) : List Char :=
  ['[', '\n'] ++ sepJoin [',', '\n'] (entries.map (dumpRecord alt)) ++ ['\n', ']']

/-! ## A JSON reader

Modelled from the spec: the source never parses JSON — the round-trip
property of §8 speaks of parsing the emitted text "as JSON" — so a
standard JSON reader for the constructs the document uses (strings,
arrays, objects, whitespace, string escapes) is defined here to state the
claim.  It is written with a fuel argument; each recursive call consumes
input, so fuel `length + 1` always suffices. -/

/-- The JSON value tree. -/
inductive Json where
  | str (s : List Char)
  | arr (elems : List Json)
  | obj (fields : List (List Char × Json))

/-- The JSON value a record of the configured shape denotes. -/
def entryJson (alt : Bool) (e : NormalizedEntry) : Json :=
  if alt then
    .obj [("word".toList, .str e.headword.toList),
          ("pinyin".toList, .str e.pinyin.toList),
          ("meanings".toList, .arr ((e.meanings.map String.toList).map Json.str))]
  else
    .obj [(e.headword.toList,
      .arr [.str e.pinyin.toList, .arr ((e.meanings.map String.toList).map Json.str)])]

/-- JSON insignificant whitespace. -/
def jsonWs (c : Char) : Bool :=
  c == ' ' || c == '\n' || c == '\t' || c == '\r'

/-- Skip insignificant whitespace. -/
def skipWs (s : List Char) : List Char :=
  s.dropWhile jsonWs

/-- Value of one hexadecimal digit. -/
def hexVal (c : Char) : Option Nat :=
  if 48 ≤ c.toNat ∧ c.toNat ≤ 57 then some (c.toNat - 48)
  else if 97 ≤ c.toNat ∧ c.toNat ≤ 102 then some (c.toNat - 87)
  else if 65 ≤ c.toNat ∧ c.toNat ≤ 70 then some (c.toNat - 55)
  else none

/-- The character denoted by a single-letter string escape. -/
def unescapeChar (c : Char) : Option Char :=
  if c = '"' then some '"'
  else if c = '\\' then some '\\'
  else if c = '/' then some '/'
  else if c = 'b' then some (Char.ofNat 8)
  else if c = 'f' then some (Char.ofNat 12)
  else if c = 'n' then some '\n'
  else if c = 'r' then some '\r'
  else if c = 't' then some '\t'
  else none

/-- Read a JSON string body after its opening quote: the decoded
characters and the text after the closing quote. -/
def parseStrBody : List Char → Option (List Char × List Char)
  | [] => none
  | c :: rest =>
    if c = '"' then some ([], rest)
    else if c = '\\' then
      match rest with
      | 'u' :: h1 :: h2 :: h3 :: h4 :: rest2 => do
        let a ← hexVal h1
        let b ← hexVal h2
        let c2 ← hexVal h3
        let d ← hexVal h4
        let (cs, r) ← parseStrBody rest2
        some (Char.ofNat (a * 4096 + b * 256 + c2 * 16 + d) :: cs, r)
      | e :: rest2 => do
        let d ← unescapeChar e
        let (cs, r) ← parseStrBody rest2
        some (d :: cs, r)
      | [] => none
    else do
      let (cs, r) ← parseStrBody rest
      some (c :: cs, r)

mutual

/-- Read one JSON value (string, array, or object), skipping leading
whitespace; returns the value and the remaining text. -/
def parseValue : Nat → List Char → Option (Json × List Char)
  | 0, _ => none
  | fuel + 1, s =>
    match skipWs s with
    | [] => none
    | c :: rest =>
      if c = '"' then (parseStrBody rest).map (fun p => (.str p.1, p.2))
      else if c = '[' then
        match skipWs rest with
        | [] => none
        | c2 :: r =>
          if c2 = ']' then some (.arr [], r)
          else do
            let (v, r2) ← parseValue fuel (c2 :: r)
            let (vs, r3) ← parseArrTail fuel r2 [v]
            some (.arr vs, r3)
      else if c = '{' then
        match skipWs rest with
        | [] => none
        | c2 :: r =>
          if c2 = '}' then some (.obj [], r)
          else if c2 = '"' then do
            let (k, r1) ← parseStrBody r
            match skipWs r1 with
            | [] => none
            | c3 :: r2 =>
              if c3 = ':' then do
                let (v, r3) ← parseValue fuel r2
                let (kvs, r4) ← parseObjTail fuel r3 [(k, v)]
                some (.obj kvs, r4)
              else none
          else none
      else none

/-- After one array element: read `, value` repetitions until `]`. -/
def parseArrTail : Nat → List Char → List Json → Option (List Json × List Char)
  | 0, _, _ => none
  | fuel + 1, s, acc =>
    match skipWs s with
    | [] => none
    | c :: rest =>
      if c = ']' then some (acc, rest)
      else if c = ',' then do
        let (v, r) ← parseValue fuel rest
        parseArrTail fuel r (acc ++ [v])
      else none

/-- After one object field: read `, "key": value` repetitions until `}`. -/
def parseObjTail : Nat → List Char → List (List Char × Json) →
    Option (List (List Char × Json) × List Char)
  | 0, _, _ => none
  | fuel + 1, s, acc =>
    match skipWs s with
    | [] => none
    | c :: rest =>
      if c = '}' then some (acc, rest)
      else if c = ',' then
        match skipWs rest with
        | [] => none
        | c2 :: r =>
          if c2 = '"' then do
            let (k, r1) ← parseStrBody r
            match skipWs r1 with
            | [] => none
            | c3 :: r2 =>
              if c3 = ':' then do
                let (v, r3) ← parseValue fuel r2
                parseObjTail fuel r3 (acc ++ [(k, v)])
              else none
          else none
      else none

end

/-- Parse a complete JSON document: one value followed by only
whitespace. -/
def parseJson (s : List Char) : Option Json :=
  match parseValue (s.length + 1) s with
  | some (v, rest) => if (skipWs rest).isEmpty then some v else none
  | none => none

/-! ## Claim theorems -/

/-- Claim C1: the Language Classifier returns Russian for a string whose
first character is the Latin letter `I` or `V`; otherwise, with
`russian_chars` the count of code points in `U+0400`–`U+04FF` and
`latin_chars` the count of ASCII Latin letters, it returns not-Russian
when `russian_chars + latin_chars = 0`, and otherwise returns Russian iff
`russian_chars / (russian_chars + latin_chars) > 0.1`; in particular a
ratio of exactly `0.1` is classified as not Russian. -/
theorem claim_C1 (m : String) :
    (is_mainly_russian m = true ↔
      (startsWithIV m = true ∨
        (0 < russianCount m + latinCount m ∧
          (1 : ℚ) / 10 <
            (russianCount m : ℚ) / ((russianCount m + latinCount m : ℕ) : ℚ)))) ∧
    (startsWithIV m = false → russianCount m + latinCount m = 0 →
      is_mainly_russian m = false) ∧
    (startsWithIV m = false →
      (russianCount m : ℚ) / ((russianCount m + latinCount m : ℕ) : ℚ) = 1 / 10 →
      is_mainly_russian m = false) := by
  by_cases hIV : startsWithIV m = true
  · refine ⟨?_, ?_, ?_⟩
    · simp [is_mainly_russian, startsWithIV] at hIV ⊢
      simp [hIV]
    · intro hf
      exact absurd hf (by simp [hIV])
    · intro hf
      exact absurd hf (by simp [hIV])
  · have hIVf : startsWithIV m = false := by simpa using hIV
    by_cases ht : 0 < russianCount m + latinCount m
    · have hcast : (0 : ℚ) < ((russianCount m + latinCount m : ℕ) : ℚ) := by
        exact_mod_cast ht
      have key : ((1 : ℚ) / 10 <
          (russianCount m : ℚ) / ((russianCount m + latinCount m : ℕ) : ℚ)) ↔
          (russianCount m + latinCount m < 10 * russianCount m) := by
        rw [div_lt_div_iff₀ (by norm_num) hcast, one_mul]
        constructor
        · intro h
          have h2 : ((russianCount m + latinCount m : ℕ) : ℚ) <
              ((10 * russianCount m : ℕ) : ℚ) := by
            push_cast at h ⊢
            linarith
          exact_mod_cast h2
        · intro h
          have h2 : ((russianCount m + latinCount m : ℕ) : ℚ) <
              ((10 * russianCount m : ℕ) : ℚ) := by
            exact_mod_cast h
          push_cast at h2 ⊢
          linarith
      have hval : is_mainly_russian m =
          decide (russianCount m + latinCount m < 10 * russianCount m) := by
        simp [is_mainly_russian, hIVf, ht]
      refine ⟨?_, ?_, ?_⟩
      · rw [hval, decide_eq_true_eq]
        constructor
        · intro h
          exact Or.inr ⟨ht, key.mpr h⟩
        · intro h
          rcases h with h | ⟨_, h⟩
          · exact absurd h (by simp [hIVf])
          · exact key.mp h
      · intro _ h0
        omega
      · intro _ hEq
        have h10 : (russianCount m : ℚ) * 10 =
            1 * ((russianCount m + latinCount m : ℕ) : ℚ) :=
          (div_eq_div_iff hcast.ne' (by norm_num)).mp hEq
        have hNat : 10 * russianCount m = russianCount m + latinCount m := by
          have h2 : ((10 * russianCount m : ℕ) : ℚ) =
              ((russianCount m + latinCount m : ℕ) : ℚ) := by
            push_cast at h10 ⊢
            linarith
          exact_mod_cast h2
        rw [hval, decide_eq_false_iff_not]
        omega
    · have h0 : russianCount m + latinCount m = 0 := by omega
      have hr0 : russianCount m = 0 := by omega
      have hl0 : latinCount m = 0 := by omega
      refine ⟨?_, ?_, ?_⟩
      · simp [is_mainly_russian, hIVf, h0, hr0]
      · intro _ _
        simp [is_mainly_russian, hIVf, h0]
      · intro _ hEq
        rw [hr0, hl0] at hEq
        norm_num at hEq

/-- Witness for C1 at a concrete boundary input: one Cyrillic letter and
nine Latin letters give ratio exactly `0.1`, classified not Russian. -/
theorem claim_C1_witness :
    startsWithIV "я abcdefghi" = false ∧
    (russianCount "я abcdefghi" : ℚ) /
      ((russianCount "я abcdefghi" + latinCount "я abcdefghi" : ℕ) : ℚ) = 1 / 10 ∧
    is_mainly_russian "я abcdefghi" = false := by
  have h1 : russianCount "я abcdefghi" = 1 := by decide
  have h2 : latinCount "я abcdefghi" = 9 := by decide
  have hq : (russianCount "я abcdefghi" : ℚ) /
      ((russianCount "я abcdefghi" + latinCount "я abcdefghi" : ℕ) : ℚ) = 1 / 10 := by
    rw [h1, h2]
    norm_num
  exact ⟨by decide, hq, (claim_C1 "я abcdefghi").2.2 (by decide) hq⟩

/-- Claim C2 names the cleaning step of source lines 62–67.  The bracket
un-escaping and whitespace normalization behave as claimed, but the
double-quote normalization does not: the Python literal `'\"'` in
`.replace('\"', '"')` is the one-character string `"`, so the replace is
the identity and a backslash-quote sequence survives cleaning.  At the
failing input `сказал \"да\"` the cleaned meaning still contains the
backslashes, where the claim requires `сказал "да"`. -/
theorem claim_C2_code_bug :
    cleanMeaning "сказал \\\"да\\\"".toList = "сказал \\\"да\\\"".toList ∧
    cleanMeaning "сказал \\\"да\\\"".toList ≠ "сказал \"да\"".toList ∧
    cleanMeaning "  \\[в\\]   скобках  ".toList = "[в] скобках".toList := by
  refine ⟨by decide, by decide, by decide⟩

/-- Claim C4: the Entry Normalizer either returns a record whose meanings
list is non-empty, or returns no record at all: when the kept-and-cleaned
meanings list is empty the entry is discarded. -/
theorem claim_C4 :
    (∀ (lines : List String) (alt : Bool) (r : OutputRecord),
      process_entry lines alt = .ok (some r) → r.meanings ≠ []) ∧
    (∀ (l0 l1 : String) (rest : List String) (alt : Bool),
      cleaned_meanings (rest.map String.toList) = [] →
      process_entry (l0 :: l1 :: rest) alt = .ok none) := by
  constructor
  · intro lines alt r h
    match lines with
    | [] => simp [process_entry] at h
    | [l0] => simp [process_entry] at h
    | l0 :: l1 :: rest =>
      simp only [process_entry] at h
      by_cases hc : (cleaned_meanings (rest.map String.toList)).isEmpty
      · simp [hc] at h
      · simp only [hc, Bool.false_eq_true, if_false, Except.ok.injEq,
          Option.some.injEq] at h
        have hne : cleaned_meanings (rest.map String.toList) ≠ [] := by
          simpa [List.isEmpty_iff] using hc
        cases alt
        · simp only [Bool.false_eq_true, if_false] at h
          rw [← h]
          simpa [OutputRecord.meanings] using hne
        · simp only [if_true] at h
          rw [← h]
          simpa [OutputRecord.meanings] using hne
  · intro l0 l1 rest alt hc
    simp [process_entry, hc]

/-- Witness for C4: a concrete entry with one kept meaning has a
non-empty meanings list, and a concrete entry whose only candidate is
pure Latin is discarded. -/
theorem claim_C4_witness :
    process_entry ["之", "zhī", "[m]служебное слово[/m]"] false
      = .ok (some (.default "之" "zhī" ["служебное слово"])) ∧
    (OutputRecord.default "之" "zhī" ["служебное слово"]).meanings ≠ [] ∧
    cleaned_meanings [("[m]hello[/m]" : String).toList] = [] ∧
    process_entry ["还", "hái", "[m]hello[/m]"] false = .ok none := by
  refine ⟨by decide, ?_, by decide, ?_⟩
  · exact claim_C4.1 ["之", "zhī", "[m]служебное слово[/m]"] false _ (by decide)
  · exact claim_C4.2 "还" "hái" ["[m]hello[/m]"] false (by decide)

/-- Claim C9: a RawEntry with fewer than two lines makes the normalizer's
unconditional access to the second line fail with an out-of-range error:
no record and no no-entry signal is returned. -/
theorem claim_C9 (lines : List String) (alt : Bool) (h : lines.length < 2) :
    ∃ msg, process_entry lines alt = .error msg := by
  match lines with
  | [] => exact ⟨_, rfl⟩
  | [l0] => exact ⟨_, rfl⟩
  | l0 :: l1 :: rest => exact absurd h (by simp)

/-- Witness for C9 at the concrete one-line entry `["之"]`. -/
theorem claim_C9_witness :
    (["之"] : List String).length < 2 ∧
    ∃ msg, process_entry ["之"] false = .error msg :=
  ⟨by decide, claim_C9 ["之"] false (by decide)⟩

/-- Claim C10: the alt-format flag changes only the record shape.  The
normalizer yields a default-shape record with given headword, pinyin and
meanings iff it yields the alt-shape record with the same three
components; the discarded case and the error case likewise agree. -/
theorem claim_C10 (lines : List String) (h p : String) (ms : List String)
    (msg : String) :
    ((process_entry lines false = .ok (some (.default h p ms))) ↔
      (process_entry lines true = .ok (some (.alt h p ms)))) ∧
    ((process_entry lines false = .ok none) ↔
      (process_entry lines true = .ok none)) ∧
    ((process_entry lines false = .error msg) ↔
      (process_entry lines true = .error msg)) := by
  match lines with
  | [] => simp [process_entry]
  | [l0] => simp [process_entry]
  | l0 :: l1 :: rest =>
    by_cases hc : (cleaned_meanings (rest.map String.toList)).isEmpty
    · simp [process_entry, hc]
    · simp [process_entry, hc]

/-- Witness for C10: transporting a concrete default-shape result to the
alt shape. -/
theorem claim_C10_witness :
    process_entry ["八", "bā", "[m]восемь[/m]"] true
      = .ok (some (.alt "八" "bā" ["восемь"])) :=
  (claim_C10 ["八", "bā", "[m]восемь[/m]"] "八" "bā" ["восемь"] "").1.mp (by decide)

/-! ### Helper lemmas for the grouping and extraction claims -/

theorem filterMap_trim_eq (L : List (List Char)) :
    L.filterMap (fun m => let t := trimChars m; if t.isEmpty then none else some t)
      = (L.filter (fun m => !(trimChars m).isEmpty)).map trimChars := by
  induction L with
  | nil => rfl
  | cons x xs ih =>
    by_cases hx : trimChars x = []
    · simpa [hx] using ih
    · simpa [hx] using ih

theorem groupLines_cons_empty (l : String) (rest g : List String)
    (h : (pyStrip l).toList.isEmpty = true) :
    groupLines (l :: rest) g = groupLines rest g := by
  have hd : (pyStrip l).data = [] := by simpa using h
  simp [groupLines, hd]

theorem groupLines_cons_chinese_nil (l : String) (rest g : List String)
    (h1 : (pyStrip l).toList.isEmpty = false) (h2 : isChineseLine (pyStrip l) = true)
    (h3 : g.isEmpty = true) :
    groupLines (l :: rest) g = groupLines rest [pyStrip l] := by
  have hd : ¬(pyStrip l).data = [] := by simpa using h1
  have hg : g = [] := by simpa using h3
  simp [groupLines, hd, h2, hg]

theorem groupLines_cons_chinese (l : String) (rest g : List String)
    (h1 : (pyStrip l).toList.isEmpty = false) (h2 : isChineseLine (pyStrip l) = true)
    (h3 : g.isEmpty = false) :
    groupLines (l :: rest) g = g :: groupLines rest [pyStrip l] := by
  have hd : ¬(pyStrip l).data = [] := by simpa using h1
  have hg : ¬g = [] := by simpa using h3
  simp [groupLines, hd, h2, hg]

theorem groupLines_cons_other (l : String) (rest g : List String)
    (h1 : (pyStrip l).toList.isEmpty = false) (h2 : isChineseLine (pyStrip l) = false) :
    groupLines (l :: rest) g = groupLines rest (g ++ [pyStrip l]) := by
  have hd : ¬(pyStrip l).data = [] := by simpa using h1
  simp [groupLines, hd, h2]

theorem scanLines_cons_empty (alt : Bool) (l : String) (rest g : List String)
    (acc : List OutputRecord) (h : (pyStrip l).toList.isEmpty = true) :
    scanLines alt (l :: rest) g acc = scanLines alt rest g acc := by
  have hd : (pyStrip l).data = [] := by simpa using h
  simp [scanLines, hd]

theorem scanLines_cons_chinese_nil (alt : Bool) (l : String) (rest g : List String)
    (acc : List OutputRecord)
    (h1 : (pyStrip l).toList.isEmpty = false) (h2 : isChineseLine (pyStrip l) = true)
    (h3 : g.isEmpty = true) :
    scanLines alt (l :: rest) g acc = scanLines alt rest [pyStrip l] acc := by
  have hd : ¬(pyStrip l).data = [] := by simpa using h1
  have hg : g = [] := by simpa using h3
  simp [scanLines, hd, h2, hg]

theorem scanLines_cons_chinese_none (alt : Bool) (l : String) (rest g : List String)
    (acc : List OutputRecord)
    (h1 : (pyStrip l).toList.isEmpty = false) (h2 : isChineseLine (pyStrip l) = true)
    (h3 : g.isEmpty = false) (hpe : process_entry g alt = .ok none) :
    scanLines alt (l :: rest) g acc = scanLines alt rest [pyStrip l] acc := by
  have hd : ¬(pyStrip l).data = [] := by simpa using h1
  have hg : ¬g = [] := by simpa using h3
  simp [scanLines, hd, h2, hg, hpe]

theorem scanLines_cons_chinese_some (alt : Bool) (l : String) (rest g : List String)
    (acc : List OutputRecord) (e : OutputRecord)
    (h1 : (pyStrip l).toList.isEmpty = false) (h2 : isChineseLine (pyStrip l) = true)
    (h3 : g.isEmpty = false) (hpe : process_entry g alt = .ok (some e)) :
    scanLines alt (l :: rest) g acc = scanLines alt rest [pyStrip l] (acc ++ [e]) := by
  have hd : ¬(pyStrip l).data = [] := by simpa using h1
  have hg : ¬g = [] := by simpa using h3
  simp [scanLines, hd, h2, hg, hpe]

theorem scanLines_cons_other (alt : Bool) (l : String) (rest g : List String)
    (acc : List OutputRecord)
    (h1 : (pyStrip l).toList.isEmpty = false) (h2 : isChineseLine (pyStrip l) = false) :
    scanLines alt (l :: rest) g acc = scanLines alt rest (g ++ [pyStrip l]) acc := by
  have hd : ¬(pyStrip l).data = [] := by simpa using h1
  simp [scanLines, hd, h2]

theorem parse_dsl_file_ok (f : DslFile) (alt : Bool) (hd : f.decodeError = false) :
    parse_dsl_file f alt = flushRecords alt (scanLines alt (f.lines.drop 3) [] []) := by
  cases hscan : scanLines alt (f.lines.drop 3) [] [] with
  | ok acc g => simp [parse_dsl_file, flushRecords, hscan, hd]
  | failed acc => simp [parse_dsl_file, flushRecords, hscan]

theorem flushRecords_scanLines (alt : Bool) :
    ∀ (ls g : List String) (acc : List OutputRecord),
    (∀ gr ∈ groupLines ls g, entryFails alt gr = false) →
    flushRecords alt (scanLines alt ls g acc)
      = acc ++ (groupLines ls g).filterMap (entryOf alt) := by
  intro ls
  induction ls with
  | nil =>
    intro g acc hok
    by_cases hg : g.isEmpty
    · simp [scanLines, flushRecords, groupLines, hg]
    · have hgf : g.isEmpty = false := by simpa using hg
      have hmem : g ∈ groupLines [] g := by simp [groupLines, hgf]
      have hfail := hok g hmem
      cases hpe : process_entry g alt with
      | error msg => exact absurd hfail (by simp [entryFails, hpe])
      | ok r =>
        cases r with
        | none =>
          simp [scanLines, flushRecords, groupLines, hgf, hpe, entryOf]
        | some e =>
          simp [scanLines, flushRecords, groupLines, hgf, hpe, entryOf]
  | cons l rest ih =>
    intro g acc hok
    by_cases h1 : (pyStrip l).toList.isEmpty
    · rw [scanLines_cons_empty alt l rest g acc h1]
      rw [groupLines_cons_empty l rest g h1] at hok
      rw [ih g acc hok, groupLines_cons_empty l rest g h1]
    · have h1f : (pyStrip l).toList.isEmpty = false := by simpa using h1
      by_cases h2 : isChineseLine (pyStrip l)
      · by_cases h3 : g.isEmpty
        · rw [scanLines_cons_chinese_nil alt l rest g acc h1f h2 h3]
          rw [groupLines_cons_chinese_nil l rest g h1f h2 h3] at hok
          rw [ih [pyStrip l] acc hok, groupLines_cons_chinese_nil l rest g h1f h2 h3]
        · have h3f : g.isEmpty = false := by simpa using h3
          have hok2 : ∀ gr ∈ groupLines rest [pyStrip l], entryFails alt gr = false := by
            intro gr hmem
            apply hok
            rw [groupLines_cons_chinese l rest g h1f h2 h3f]
            exact List.mem_cons_of_mem _ hmem
          have hgmem : g ∈ groupLines (l :: rest) g := by
            rw [groupLines_cons_chinese l rest g h1f h2 h3f]
            exact List.mem_cons_self _ _
          have hgok := hok g hgmem
          cases hpe : process_entry g alt with
          | error msg => exact absurd hgok (by simp [entryFails, hpe])
          | ok r =>
            cases r with
            | none =>
              rw [scanLines_cons_chinese_none alt l rest g acc h1f h2 h3f hpe]
              rw [ih [pyStrip l] acc hok2,
                groupLines_cons_chinese l rest g h1f h2 h3f]
              simp [entryOf, hpe]
            | some e =>
              rw [scanLines_cons_chinese_some alt l rest g acc e h1f h2 h3f hpe]
              rw [ih [pyStrip l] (acc ++ [e]) hok2,
                groupLines_cons_chinese l rest g h1f h2 h3f]
              simp [entryOf, hpe]
      · have h2f : isChineseLine (pyStrip l) = false := by simpa using h2
        rw [scanLines_cons_other alt l rest g acc h1f h2f]
        rw [groupLines_cons_other l rest g h1f h2f] at hok
        rw [ih (g ++ [pyStrip l]) acc hok, groupLines_cons_other l rest g h1f h2f]

/-! ### Helper lemmas for the serializer round trip -/

theorem skipWs_nl (t : List Char) : skipWs ('\n' :: t) = skipWs t := rfl

theorem skipWs_sp (t : List Char) : skipWs (' ' :: t) = skipWs t := rfl

theorem skipWs_replicate (k : Nat) (t : List Char) :
    skipWs (List.replicate k ' ' ++ t) = skipWs t := by
  induction k with
  | zero => rfl
  | succ n ih => simpa [List.replicate_succ] using ih

theorem skipWs_ind (n : Nat) (t : List Char) : skipWs (ind n ++ t) = skipWs t :=
  skipWs_replicate (2 * n) t

theorem skipWs_quote (t : List Char) : skipWs ('"' :: t) = '"' :: t := rfl

theorem skipWs_lbrack (t : List Char) : skipWs ('[' :: t) = '[' :: t := rfl

theorem skipWs_rbrack (t : List Char) : skipWs (']' :: t) = ']' :: t := rfl

theorem skipWs_lbrace (t : List Char) : skipWs ('{' :: t) = '{' :: t := rfl

theorem skipWs_rbrace (t : List Char) : skipWs ('}' :: t) = '}' :: t := rfl

theorem skipWs_comma (t : List Char) : skipWs (',' :: t) = ',' :: t := rfl

theorem skipWs_colon (t : List Char) : skipWs (':' :: t) = ':' :: t := rfl

theorem escapeChars_nil : escapeChars [] = [] := rfl

theorem escapeChars_cons (c : Char) (s : List Char) :
    escapeChars (c :: s) = escChar c ++ escapeChars s := by
  simp [escapeChars]

theorem hexVal_hexDig : ∀ n : Nat, n < 16 → hexVal (hexDig n) = some n := by
  decide

theorem parseStrBody_quote (rest : List Char) :
    parseStrBody ('"' :: rest) = some ([], rest) := by
  rw [parseStrBody.eq_def]
  simp

theorem parseStrBody_lit (c : Char) (t cs r : List Char)
    (h1 : ¬c = '"') (h2 : ¬c = '\\') (h3 : parseStrBody t = some (cs, r)) :
    parseStrBody (c :: t) = some (c :: cs, r) := by
  rw [parseStrBody.eq_def]
  simp [h1, h2, h3]

theorem parseStrBody_esc (e d : Char) (t cs r : List Char) (h1 : ¬e = 'u')
    (h2 : unescapeChar e = some d) (h3 : parseStrBody t = some (cs, r)) :
    parseStrBody ('\\' :: e :: t) = some (d :: cs, r) := by
  rw [parseStrBody.eq_def]
  simp [h1, h2, h3]

theorem parseStrBody_u (a1 a2 a3 a4 : Char) (va vb vc vd : Nat) (t cs r : List Char)
    (ha : hexVal a1 = some va) (hb : hexVal a2 = some vb) (hc : hexVal a3 = some vc)
    (hd : hexVal a4 = some vd) (h3 : parseStrBody t = some (cs, r)) :
    parseStrBody ('\\' :: 'u' :: a1 :: a2 :: a3 :: a4 :: t)
      = some (Char.ofNat (va * 4096 + vb * 256 + vc * 16 + vd) :: cs, r) := by
  rw [parseStrBody.eq_def]
  simp [ha, hb, hc, hd, h3]

theorem parseStrBody_escape (s : List Char) :
    ∀ rest, parseStrBody (escapeChars s ++ ('"' :: rest)) = some (s, rest) := by
  induction s with
  | nil =>
    intro rest
    simpa [escapeChars] using parseStrBody_quote rest
  | cons c cs ih =>
    intro rest
    rw [escapeChars_cons, List.append_assoc]
    by_cases h1 : c = '\\'
    · subst h1
      exact parseStrBody_esc '\\' '\\' _ _ _ (by decide) (by decide) (ih rest)
    · by_cases h2 : c = '"'
      · subst h2
        exact parseStrBody_esc '"' '"' _ _ _ (by decide) (by decide) (ih rest)
      · by_cases h3 : c = Char.ofNat 8
        · subst h3
          exact parseStrBody_esc 'b' (Char.ofNat 8) _ _ _ (by decide) (by decide) (ih rest)
        · by_cases h4 : c = Char.ofNat 12
          · subst h4
            exact parseStrBody_esc 'f' (Char.ofNat 12) _ _ _ (by decide) (by decide)
              (ih rest)
          · by_cases h5 : c = '\n'
            · subst h5
              exact parseStrBody_esc 'n' '\n' _ _ _ (by decide) (by decide) (ih rest)
            · by_cases h6 : c = '\r'
              · subst h6
                exact parseStrBody_esc 'r' '\r' _ _ _ (by decide) (by decide) (ih rest)
              · by_cases h7 : c = '\t'
                · subst h7
                  exact parseStrBody_esc 't' '\t' _ _ _ (by decide) (by decide) (ih rest)
                · by_cases h8 : c.toNat < 32
                  · have hdiv : c.toNat / 16 < 16 := by omega
                    have hmod : c.toNat % 16 < 16 := Nat.mod_lt _ (by omega)
                    have he : escChar c = ['\\', 'u', '0', '0',
                        hexDig (c.toNat / 16), hexDig (c.toNat % 16)] := by
                      simp [escChar, h1, h2, h3, h4, h5, h6, h7, h8]
                    rw [he]
                    have hu := parseStrBody_u '0' '0' (hexDig (c.toNat / 16))
                      (hexDig (c.toNat % 16)) 0 0 (c.toNat / 16) (c.toNat % 16)
                      (escapeChars cs ++ ('"' :: rest)) cs rest (by decide) (by decide)
                      (hexVal_hexDig _ hdiv) (hexVal_hexDig _ hmod) (ih rest)
                    rw [show 0 * 4096 + 0 * 256 + c.toNat / 16 * 16 + c.toNat % 16
                        = c.toNat from by omega, Char.ofNat_toNat] at hu
                    exact hu
                  · have he : escChar c = [c] := by
                      simp [escChar, h1, h2, h3, h4, h5, h6, h7, h8]
                    rw [he]
                    exact parseStrBody_lit c _ _ _ h2 h1 (ih rest)

theorem parseValue_step_str (fuel : Nat) (s t cs r : List Char)
    (h1 : skipWs s = '"' :: t) (h2 : parseStrBody t = some (cs, r)) :
    parseValue (fuel + 1) s = some (.str cs, r) := by
  rw [parseValue.eq_def]
  simp [h1, h2]

theorem parseValue_step_arr_nil (fuel : Nat) (s t r : List Char)
    (h1 : skipWs s = '[' :: t) (h2 : skipWs t = ']' :: r) :
    parseValue (fuel + 1) s = some (.arr [], r) := by
  rw [parseValue.eq_def]
  simp [h1, h2]

theorem parseValue_step_arr (fuel : Nat) (s t r r2 r3 : List Char) (c2 : Char)
    (v : Json) (vs : List Json)
    (h1 : skipWs s = '[' :: t) (h2 : skipWs t = c2 :: r) (h3 : ¬c2 = ']')
    (h4 : parseValue fuel (c2 :: r) = some (v, r2))
    (h5 : parseArrTail fuel r2 [v] = some (vs, r3)) :
    parseValue (fuel + 1) s = some (.arr vs, r3) := by
  rw [parseValue.eq_def]
  simp [h1, h2, h3, h4, h5]

theorem parseValue_step_obj (fuel : Nat) (s t r r1 r2 r3 r4 k : List Char)
    (v : Json) (kvs : List (List Char × Json))
    (h1 : skipWs s = '{' :: t) (h2 : skipWs t = '"' :: r)
    (h3 : parseStrBody r = some (k, r1)) (h4 : skipWs r1 = ':' :: r2)
    (h5 : parseValue fuel r2 = some (v, r3))
    (h6 : parseObjTail fuel r3 [(k, v)] = some (kvs, r4)) :
    parseValue (fuel + 1) s = some (.obj kvs, r4) := by
  rw [parseValue.eq_def]
  simp [h1, h2, h3, h4, h5, h6]

theorem parseArrTail_close (fuel : Nat) (s r : List Char) (acc : List Json)
    (h : skipWs s = ']' :: r) :
    parseArrTail (fuel + 1) s acc = some (acc, r) := by
  rw [parseArrTail.eq_def]
  simp [h]

theorem parseArrTail_comma (fuel : Nat) (s r r2 : List Char) (acc : List Json)
    (v : Json) (res : Option (List Json × List Char))
    (h1 : skipWs s = ',' :: r) (h2 : parseValue fuel r = some (v, r2))
    (h3 : parseArrTail fuel r2 (acc ++ [v]) = res) :
    parseArrTail (fuel + 1) s acc = res := by
  rw [parseArrTail.eq_def]
  simp [h1, h2, h3]

theorem parseObjTail_close (fuel : Nat) (s r : List Char)
    (acc : List (List Char × Json)) (h : skipWs s = '}' :: r) :
    parseObjTail (fuel + 1) s acc = some (acc, r) := by
  rw [parseObjTail.eq_def]
  simp [h]

theorem parseObjTail_comma (fuel : Nat) (s r r1 r2 r3 r4 k : List Char)
    (acc : List (List Char × Json)) (v : Json)
    (res : Option (List (List Char × Json) × List Char))
    (h1 : skipWs s = ',' :: r) (h2 : skipWs r = '"' :: r1)
    (h3 : parseStrBody r1 = some (k, r2)) (h4 : skipWs r2 = ':' :: r3)
    (h5 : parseValue fuel r3 = some (v, r4))
    (h6 : parseObjTail fuel r4 (acc ++ [(k, v)]) = res) :
    parseObjTail (fuel + 1) s acc = res := by
  rw [parseObjTail.eq_def]
  simp [h1, h2, h3, h4, h5, h6]

theorem parseValue_str (fuel : Nat) (s x tail : List Char)
    (hs : skipWs s = '"' :: (escapeChars x ++ ('"' :: tail))) :
    parseValue (fuel + 1) s = some (.str x, tail) :=
  parseValue_step_str fuel s _ x tail hs (parseStrBody_escape x tail)

theorem parseArrTail_strs (lvl : Nat) :
    ∀ (xs : List (List Char)) (fuel : Nat) (acc : List Json) (rest : List Char),
    xs.length + 1 ≤ fuel →
    parseArrTail fuel
      ((xs.map (fun s2 => [',', '\n'] ++ ind (lvl + 1) ++ quoteStr s2)).flatten
        ++ ('\n' :: (ind lvl ++ (']' :: rest)))) acc
      = some (acc ++ xs.map Json.str, rest) := by
  intro xs
  induction xs with
  | nil =>
    intro fuel acc rest hf
    obtain ⟨f, rfl⟩ : ∃ f, fuel = f + 1 := ⟨fuel - 1, by omega⟩
    have h1 : skipWs (([] : List (List Char)).flatten
        ++ ('\n' :: (ind lvl ++ (']' :: rest)))) = ']' :: rest := by
      simp [skipWs_nl, skipWs_ind, skipWs_rbrack]
    simpa using parseArrTail_close f _ rest acc (by simpa using h1)
  | cons x xs2 ih =>
    intro fuel acc rest hf
    simp only [List.length_cons] at hf
    obtain ⟨f2, rfl⟩ : ∃ f2, fuel = f2 + 1 + 1 := ⟨fuel - 2, by omega⟩
    have hf2 : xs2.length + 1 ≤ f2 + 1 := by omega
    apply parseArrTail_comma (f2 + 1) _ _ _ acc (Json.str x)
    · simp only [List.map_cons, List.flatten_cons, List.cons_append, List.nil_append,
        List.append_assoc, skipWs_comma]
      rfl
    · apply parseValue_str f2 _ x
      simp only [quoteStr, skipWs_nl, skipWs_ind, skipWs_quote, List.cons_append,
        List.nil_append, List.singleton_append, List.append_assoc]
      rfl
    · simpa [List.append_assoc] using ih (f2 + 1) (acc ++ [Json.str x]) rest hf2

theorem parseValue_strList (lvl : Nat) (xs : List (List Char)) (fuel : Nat)
    (s rest : List Char) (hf : xs.length + 2 ≤ fuel)
    (hs : skipWs s = dumpStrList lvl xs ++ rest) :
    parseValue fuel s = some (.arr (xs.map Json.str), rest) := by
  obtain ⟨f, rfl⟩ : ∃ f, fuel = f + 1 := ⟨fuel - 1, by omega⟩
  cases xs with
  | nil =>
    have h1 : skipWs s = '[' :: (']' :: rest) := by simpa [dumpStrList] using hs
    simpa using parseValue_step_arr_nil f s (']' :: rest) rest h1 (skipWs_rbrack rest)
  | cons x xs2 =>
    simp only [List.length_cons] at hf
    obtain ⟨f2, rfl⟩ : ∃ f2, f = f2 + 1 := ⟨f - 1, by omega⟩
    apply parseValue_step_arr (f2 + 1) s _ _ _ rest '"' (Json.str x)
      ((x :: xs2).map Json.str)
    · rw [hs]
      simp only [dumpStrList, List.cons_append, List.nil_append, List.append_assoc,
        skipWs_lbrack]
      rfl
    · simp only [quoteStr, skipWs_nl, skipWs_ind, skipWs_quote, List.cons_append,
        List.nil_append, List.singleton_append, List.append_assoc]
      rfl
    · decide
    · exact parseValue_str f2 _ x _ (skipWs_quote _)
    · simpa using parseArrTail_strs lvl xs2 (f2 + 1) [Json.str x] rest (by omega)

theorem skipWs_dumpStrList (lvl : Nat) (xs : List (List Char)) (t : List Char) :
    skipWs (dumpStrList lvl xs ++ t) = dumpStrList lvl xs ++ t := by
  cases xs with
  | nil => simp [dumpStrList, skipWs_lbrack]
  | cons x xs2 => simp [dumpStrList, skipWs_lbrack, List.append_assoc]

theorem parseValue_record (alt : Bool) (e : NormalizedEntry) (fuel : Nat)
    (s rest : List Char) (hf : e.meanings.length + 8 ≤ fuel)
    (hs : skipWs s = dumpRecord alt e ++ rest) :
    parseValue fuel s = some (entryJson alt e, rest) := by
  obtain ⟨f, rfl⟩ : ∃ f, fuel = f + 4 := ⟨fuel - 4, by omega⟩
  have hfm : (e.meanings.map String.toList).length + 2 ≤ f + 1 := by
    simp only [List.length_map]
    omega
  cases alt
  · simp only [entryJson, Bool.false_eq_true, if_false]
    simp only [dumpRecord, Bool.false_eq_true, if_false] at hs
    apply parseValue_step_obj (f + 3) s
    · rw [hs]
      simp only [List.cons_append, List.nil_append, List.append_assoc, skipWs_lbrace]
      rfl
    · simp only [quoteStr, skipWs_nl, skipWs_ind, skipWs_quote, List.cons_append,
        List.nil_append, List.singleton_append, List.append_assoc]
      rfl
    · exact parseStrBody_escape _ _
    · simp only [skipWs_colon]
      rfl
    · apply parseValue_step_arr (f + 2) _ _ _ _ _ '"' (Json.str e.pinyin.toList)
        [Json.str e.pinyin.toList,
          Json.arr ((e.meanings.map String.toList).map Json.str)]
      · simp only [skipWs_sp, skipWs_lbrack, List.cons_append, List.nil_append,
          List.append_assoc]
        rfl
      · simp only [quoteStr, skipWs_nl, skipWs_ind, skipWs_quote, List.cons_append,
          List.nil_append, List.singleton_append, List.append_assoc]
        rfl
      · decide
      · exact parseValue_str (f + 1) _ _ _ (skipWs_quote _)
      · apply parseArrTail_comma (f + 1) _ _ _ [Json.str e.pinyin.toList]
          (Json.arr ((e.meanings.map String.toList).map Json.str))
        · simp only [skipWs_comma, List.cons_append, List.nil_append,
            List.append_assoc]
          rfl
        · apply parseValue_strList 2 (e.meanings.map String.toList) (f + 1) _ _ hfm
          simp only [skipWs_nl, skipWs_ind, skipWs_dumpStrList, List.cons_append,
            List.nil_append, List.append_assoc]
          rfl
        · apply parseArrTail_close f
          simp only [skipWs_nl, skipWs_ind, skipWs_rbrack, List.cons_append,
            List.nil_append, List.append_assoc]
          rfl
    · apply parseObjTail_close (f + 2)
      simp only [skipWs_nl, skipWs_rbrace]
  · simp only [entryJson, if_true]
    simp only [dumpRecord, if_true] at hs
    apply parseValue_step_obj (f + 3) s
    · rw [hs]
      simp only [List.cons_append, List.nil_append, List.append_assoc, skipWs_lbrace]
      rfl
    · simp only [quoteStr, skipWs_nl, skipWs_ind, skipWs_quote, List.cons_append,
        List.nil_append, List.singleton_append, List.append_assoc]
      rfl
    · exact parseStrBody_escape _ _
    · simp only [skipWs_colon]
      rfl
    · exact parseValue_str (f + 2) _ _ _ (by
        simp only [quoteStr, skipWs_sp, skipWs_quote, List.cons_append,
          List.nil_append, List.singleton_append, List.append_assoc]
        rfl)
    · apply parseObjTail_comma (f + 2)
      · simp only [skipWs_comma, List.cons_append, List.nil_append, List.append_assoc]
        rfl
      · simp only [quoteStr, skipWs_nl, skipWs_ind, skipWs_quote, List.cons_append,
          List.nil_append, List.singleton_append, List.append_assoc]
        rfl
      · exact parseStrBody_escape _ _
      · simp only [skipWs_colon]
        rfl
      · exact parseValue_str (f + 1) _ _ _ (by
          simp only [quoteStr, skipWs_sp, skipWs_quote, List.cons_append,
            List.nil_append, List.singleton_append, List.append_assoc]
          rfl)
      · apply parseObjTail_comma (f + 1)
        · simp only [skipWs_comma, List.cons_append, List.nil_append,
            List.append_assoc]
          rfl
        · simp only [quoteStr, skipWs_nl, skipWs_ind, skipWs_quote, List.cons_append,
            List.nil_append, List.singleton_append, List.append_assoc]
          rfl
        · exact parseStrBody_escape _ _
        · simp only [skipWs_colon]
          rfl
        · apply parseValue_strList 1 (e.meanings.map String.toList) (f + 1) _ _ hfm
          simp only [skipWs_sp, skipWs_dumpStrList, List.cons_append, List.nil_append,
            List.append_assoc]
          rfl
        · apply parseObjTail_close f
          simp only [skipWs_nl, skipWs_rbrace]

theorem sepJoin_nil (sep : List Char) : sepJoin sep [] = [] := rfl

theorem sepJoin_eq (sep : List Char) :
    ∀ (x : List Char) (xs : List (List Char)),
    sepJoin sep (x :: xs) = x ++ (xs.map (fun y => sep ++ y)).flatten := by
  intro x xs
  induction xs generalizing x with
  | nil => simp [sepJoin]
  | cons y ys ih =>
    rw [show sepJoin sep (x :: y :: ys) = x ++ sep ++ sepJoin sep (y :: ys) from rfl,
      ih y]
    simp [List.append_assoc]

theorem skipWs_dumpRecord (alt : Bool) (e : NormalizedEntry) (t : List Char) :
    skipWs (dumpRecord alt e ++ t) = dumpRecord alt e ++ t := by
  cases alt <;> simp [dumpRecord, skipWs_lbrace, List.append_assoc]

theorem parseValue_nil_none (fuel : Nat) : parseValue fuel [] = none := by
  cases fuel with
  | zero => rfl
  | succ f =>
    rw [parseValue.eq_def]
    simp [skipWs]

theorem parseValue_rbrack_none (fuel : Nat) (r : List Char) :
    parseValue fuel (']' :: r) = none := by
  cases fuel with
  | zero => rfl
  | succ f =>
    rw [parseValue.eq_def]
    simp [skipWs_rbrack]

theorem parseValue_step_arr_gen (fuel : Nat) (s t r2 r3 : List Char) (v : Json)
    (vs : List Json)
    (h1 : skipWs s = '[' :: t)
    (h2 : parseValue fuel (skipWs t) = some (v, r2))
    (h3 : parseArrTail fuel r2 [v] = some (vs, r3)) :
    parseValue (fuel + 1) s = some (.arr vs, r3) := by
  cases hT : skipWs t with
  | nil =>
    rw [hT, parseValue_nil_none] at h2
    exact absurd h2 (by simp)
  | cons c2 r =>
    rw [hT] at h2
    by_cases hc2 : c2 = ']'
    · subst hc2
      rw [parseValue_rbrack_none] at h2
      exact absurd h2 (by simp)
    · exact parseValue_step_arr fuel s t r r2 r3 c2 v vs h1 hT hc2 h2 h3

theorem parseArrTail_records (alt : Bool) :
    ∀ (es : List NormalizedEntry) (fuel : Nat) (acc : List Json) (rest : List Char),
    (es.map (fun e => e.meanings.length + 9)).sum + 1 ≤ fuel →
    parseArrTail fuel
      ((es.map (fun e => [',', '\n'] ++ dumpRecord alt e)).flatten
        ++ ('\n' :: (']' :: rest))) acc
      = some (acc ++ es.map (entryJson alt), rest) := by
  intro es
  induction es with
  | nil =>
    intro fuel acc rest hf
    obtain ⟨f, rfl⟩ : ∃ f, fuel = f + 1 := ⟨fuel - 1, by omega⟩
    simpa using parseArrTail_close f _ rest acc (by simp [skipWs_nl, skipWs_rbrack])
  | cons e es2 ih =>
    intro fuel acc rest hf
    simp only [List.map_cons, List.sum_cons] at hf
    obtain ⟨f, rfl⟩ : ∃ f, fuel = f + 1 := ⟨fuel - 1, by omega⟩
    apply parseArrTail_comma f _ _ _ acc (entryJson alt e)
    · simp only [List.map_cons, List.flatten_cons, List.cons_append, List.nil_append,
        List.append_assoc, skipWs_comma]
      rfl
    · apply parseValue_record alt e f _ _ (by omega)
      simp only [skipWs_nl, skipWs_dumpRecord, List.append_assoc]
      rfl
    · simpa [List.append_assoc] using ih f (acc ++ [entryJson alt e]) rest (by omega)

theorem parseValue_doc (alt : Bool) (entries : List NormalizedEntry) (fuel : Nat)
    (rest : List Char)
    (hf : (entries.map (fun e => e.meanings.length + 9)).sum + 2 ≤ fuel) :
    parseValue fuel (['[', '\n'] ++ sepJoin [',', '\n'] (entries.map (dumpRecord alt))
        ++ ('\n' :: (']' :: rest)))
      = some (.arr (entries.map (entryJson alt)), rest) := by
  obtain ⟨f, rfl⟩ : ∃ f, fuel = f + 1 := ⟨fuel - 1, by omega⟩
  cases entries with
  | nil =>
    apply parseValue_step_arr_nil f
    · simp only [List.map_nil, sepJoin_nil, List.cons_append, List.nil_append,
        List.append_nil, skipWs_lbrack]
      rfl
    · simp [skipWs_nl, skipWs_rbrack]
  | cons e es2 =>
    simp only [List.map_cons, List.sum_cons] at hf
    rw [List.map_cons, sepJoin_eq]
    apply parseValue_step_arr_gen f
    · simp only [List.cons_append, List.nil_append, List.append_assoc, skipWs_lbrack]
      rfl
    · apply parseValue_record alt e f _ _ (by omega)
      simp only [skipWs_nl, skipWs_dumpRecord, List.append_assoc]
      rfl
    · simpa [List.append_assoc] using
        parseArrTail_records alt es2 f [entryJson alt e] rest (by omega)

theorem quoteStr_length (s : List Char) : 2 ≤ (quoteStr s).length := by
  simp [quoteStr]

theorem dumpStrList_length (lvl : Nat) (xs : List (List Char)) :
    xs.length + 2 ≤ (dumpStrList lvl xs).length := by
  cases xs with
  | nil => simp [dumpStrList]
  | cons x xs2 =>
    have hx := quoteStr_length x
    have hflat : xs2.length ≤
        ((xs2.map (fun s2 => [',', '\n'] ++ ind (lvl + 1) ++ quoteStr s2)).flatten).length := by
      induction xs2 with
      | nil => simp
      | cons y ys ih =>
        have hy := quoteStr_length y
        simp only [List.map_cons, List.flatten_cons, List.length_append,
          List.length_cons]
        omega
    simp only [dumpStrList, List.length_append, List.length_cons]
    omega

theorem dumpRecord_length (alt : Bool) (e : NormalizedEntry) :
    e.meanings.length + 10 ≤ (dumpRecord alt e).length := by
  have hm := dumpStrList_length 1 (e.meanings.map String.toList)
  have hm2 := dumpStrList_length 2 (e.meanings.map String.toList)
  have h1 := quoteStr_length e.headword.toList
  have h2 := quoteStr_length e.pinyin.toList
  simp only [List.length_map] at hm hm2
  cases alt <;>
    simp only [dumpRecord, Bool.false_eq_true, if_false, if_true,
      List.length_append, List.length_cons] <;>
    omega

theorem sepJoin_records_length (alt : Bool) :
    ∀ entries : List NormalizedEntry,
    (entries.map (fun e => e.meanings.length + 9)).sum
      ≤ (sepJoin [',', '\n'] (entries.map (dumpRecord alt))).length := by
  intro entries
  induction entries with
  | nil => simp [sepJoin_nil]
  | cons e es2 ih =>
    have he := dumpRecord_length alt e
    cases es2 with
    | nil =>
      simp only [List.map_cons, List.map_nil, List.sum_cons, List.sum_nil]
      simpa [sepJoin] using by omega
    | cons e2 es3 =>
      simp only [List.map_cons, List.sum_cons]
      rw [show sepJoin [',', '\n']
          (dumpRecord alt e :: dumpRecord alt e2 :: es3.map (dumpRecord alt))
          = dumpRecord alt e ++ [',', '\n']
            ++ sepJoin [',', '\n'] (dumpRecord alt e2 :: es3.map (dumpRecord alt))
          from rfl]
      simp only [List.map_cons, List.sum_cons, List.length_append] at ih ⊢
      omega

/-- Claim C8: serializing any ordered sequence of N normalized entries —
opening bracket, a separating comma before each record but the first,
each record pretty-printed in the configured shape, closing bracket —
and then parsing the resulting text as JSON yields exactly the N records
in the original order, each in the configured shape. -/
theorem claim_C8 (alt : Bool) (entries : List NormalizedEntry) :
    parseJson (writeDoc alt entries) = some (.arr (entries.map (entryJson alt))) ∧
    (entries.map (entryJson alt)).length = entries.length := by
  refine ⟨?_, by simp⟩
  have hdoc : writeDoc alt entries
      = ['[', '\n'] ++ sepJoin [',', '\n'] (entries.map (dumpRecord alt))
        ++ ('\n' :: (']' :: ([] : List Char))) := rfl
  have hlen : (entries.map (fun e => e.meanings.length + 9)).sum + 2
      ≤ (writeDoc alt entries).length + 1 := by
    have hs := sepJoin_records_length alt entries
    rw [hdoc]
    simp only [List.length_append, List.length_cons]
    omega
  have hp := parseValue_doc alt entries ((writeDoc alt entries).length + 1) []
    hlen
  unfold parseJson
  rw [hdoc] at hp ⊢
  rw [hp]
  simp [skipWs]

/-- Claim C6 as stated takes the candidate meanings to be the raw inner
texts of the meaning-marker matches.  The code strips each candidate
before keeping it (`[m.strip() for m in … if m.strip()]`), which matters
downstream: classification sees the stripped text.  At a body whose only
match has inner text ` привет` the code's candidate list `["привет"]`
differs from the claimed list `[" привет"]`. -/
theorem claim_C6_cex :
    extract_meanings [("[m] привет[/m]" : String).toList]
      ≠ (findAllMeanings (removeTags (removeExamples
          (sepJoin [' '] [("[m] привет[/m]" : String).toList])))).filter
          (fun m => !(trimChars m).isEmpty) := by
  decide

/-- Claim C6 amended: for every RawEntry body, the candidate meanings are
exactly the trimmed inner texts, in order of appearance, of the
non-greedy meaning-marker matches taken after removing the non-greedy
example blocks and then all recognized inline tags, with candidates that
are empty after trimming dropped. -/
theorem claim_C6 (body : List (List Char)) :
    extract_meanings body
      = ((findAllMeanings (removeTags (removeExamples (sepJoin [' '] body)))).filter
          (fun m => !(trimChars m).isEmpty)).map trimChars := by
  unfold extract_meanings
  exact filterMap_trim_eq _

/-- Claim C7 as stated requires the pinyin of every emitted record to
contain no recognized tag marker.  A single left-to-right removal pass
can create a new marker from adjacent text: on the second line `[[c]c]`
the removal of the inner `[c]` leaves exactly `[c]`, and the record is
still emitted. -/
theorem claim_C7_cex :
    process_entry ["把", "[[c]c]", "[m]текст[/m]"] false
      = .ok (some (.default "把" "[c]" ["текст"])) ∧
    containsSub ("[c]" : String).toList
      ((OutputRecord.default "把" "[c]" ["текст"]).pinyin.toList) = true := by
  refine ⟨by decide, by decide⟩

/-- Claim C7 amended: for a valid RawEntry group (at least two lines,
non-empty trimmed first line), an emitted record has a non-empty headword,
and its pinyin is the trimmed second line after one left-to-right removal
pass of the recognized tag markers — a pass that removes every marker
occurrence present in the line but may concatenate surrounding text into
a new marker occurrence. -/
theorem claim_C7 (l0 l1 : String) (rest : List String) (alt : Bool) (r : OutputRecord)
    (h0 : (pyStrip l0).toList ≠ [])
    (h : process_entry (l0 :: l1 :: rest) alt = .ok (some r)) :
    r.headword ≠ "" ∧ r.pinyin = String.mk (removeTags (pyStrip l1).toList) := by
  simp only [process_entry] at h
  by_cases hc : (cleaned_meanings (rest.map String.toList)).isEmpty
  · simp [hc] at h
  · simp only [hc, Bool.false_eq_true, if_false, Except.ok.injEq, Option.some.injEq] at h
    have hhw : pyStrip l0 ≠ "" := by
      intro contra
      rw [contra] at h0
      exact h0 rfl
    cases alt
    · simp only [Bool.false_eq_true, if_false] at h
      rw [← h]
      exact ⟨hhw, rfl⟩
    · simp only [if_true] at h
      rw [← h]
      exact ⟨hhw, rfl⟩

/-- Witness for the amended C7 at a concrete tagged pinyin line. -/
theorem claim_C7_witness :
    (pyStrip "的").toList ≠ [] ∧
    process_entry ["的", "[p]de[/p]", "[m]служебная частица[/m]"] false
      = .ok (some (.default "的" "de" ["служебная частица"])) ∧
    (OutputRecord.default "的" "de" ["служебная частица"]).headword ≠ "" ∧
    (OutputRecord.default "的" "de" ["служебная частица"]).pinyin
      = String.mk (removeTags (pyStrip "[p]de[/p]").toList) := by
  refine ⟨by decide, by decide, ?_⟩
  exact claim_C7 "的" "[p]de[/p]" ["[m]служебная частица[/m]"] false _ (by decide) (by decide)

/-- Claim C3 as stated says a file that fails to decode contributes zero
entries.  Decoding is streamed: at this file the decode error arrives
after a complete entry was already yielded and written, so the file
contributes one entry, not zero. -/
theorem claim_C3_cex :
    (⟨["h1", "h2", "h3", "一", "yī", "[m]раз[/m]", "二"], true⟩ : DslFile).decodeError
      = true ∧
    parse_dsl_file ⟨["h1", "h2", "h3", "一", "yī", "[m]раз[/m]", "二"], true⟩ false
      ≠ [] := by
  refine ⟨rfl, by decide⟩

/-- Claim C3 amended: error isolation at file granularity holds — every
run splits as the concatenation of the per-file record lists, so a
failing file never disturbs the other files' entries — and a file whose
decode fails contributes exactly the entries completed strictly before
the failure point (possibly zero), its pending group never being
flushed. -/
theorem claim_C3 (fs1 fs2 : List DslFile) (f : DslFile) (alt : Bool) :
    parse_directory (fs1 ++ f :: fs2) alt
      = parse_directory fs1 alt ++ (parse_dsl_file f alt ++ parse_directory fs2 alt) ∧
    (f.decodeError = true →
      parse_dsl_file f alt = scanRecords alt (f.lines.drop 3)) := by
  constructor
  · simp [parse_directory]
  · intro hd
    cases hscan : scanLines alt (f.lines.drop 3) [] [] with
    | ok acc g => simp [parse_dsl_file, scanRecords, hscan, hd]
    | failed acc => simp [parse_dsl_file, scanRecords, hscan]

/-- Witness for the amended C3 at a concrete decode-failing file. -/
theorem claim_C3_witness :
    parse_dsl_file ⟨["h1", "h2", "h3", "三", "sān", "[m]три[/m]", "四"], true⟩ false
      = scanRecords false
          ((["h1", "h2", "h3", "三", "sān", "[m]три[/m]", "四"] : List String).drop 3) :=
  (claim_C3 [] [] ⟨["h1", "h2", "h3", "三", "sān", "[m]три[/m]", "四"], true⟩ false).2 rfl

/-- Claim C5: the Tokenizer/Grouper skips the first 3 lines, trims each
subsequent line and skips it if empty, starts a new group exactly at each
line consisting entirely of CJK Unified Ideographs (flushing the
accumulated group, if any), appends any other non-empty line to the
current group, and flushes the final group at end of input if non-empty;
consequently, in a run without decode errors or entry exceptions,
`parse_dsl_file` emits exactly the records its groups produce, in
order. -/
theorem claim_C5 (l l1 l2 l3 : String) (rest g : List String) (f : DslFile)
    (alt : Bool) :
    (fileGroups (l1 :: l2 :: l3 :: rest) = groupLines rest []) ∧
    ((pyStrip l).toList.isEmpty = true →
      groupLines (l :: rest) g = groupLines rest g) ∧
    ((pyStrip l).toList.isEmpty = false → isChineseLine (pyStrip l) = true →
      g.isEmpty = true → groupLines (l :: rest) g = groupLines rest [pyStrip l]) ∧
    ((pyStrip l).toList.isEmpty = false → isChineseLine (pyStrip l) = true →
      g.isEmpty = false →
      groupLines (l :: rest) g = g :: groupLines rest [pyStrip l]) ∧
    ((pyStrip l).toList.isEmpty = false → isChineseLine (pyStrip l) = false →
      groupLines (l :: rest) g = groupLines rest (g ++ [pyStrip l])) ∧
    (groupLines ([] : List String) ([] : List String) = []) ∧
    (g.isEmpty = false → groupLines [] g = [g]) ∧
    (f.decodeError = false →
      (∀ gr ∈ fileGroups f.lines, entryFails alt gr = false) →
      parse_dsl_file f alt = (fileGroups f.lines).filterMap (entryOf alt)) := by
  refine ⟨rfl, groupLines_cons_empty l rest g,
    groupLines_cons_chinese_nil l rest g,
    groupLines_cons_chinese l rest g,
    groupLines_cons_other l rest g,
    rfl, ?_, ?_⟩
  · intro hg
    simp [groupLines, hg]
  · intro hd hok
    rw [parse_dsl_file_ok f alt hd]
    rw [flushRecords_scanLines alt (f.lines.drop 3) [] [] hok]
    simp [fileGroups]

/-- Witness for C5: a concrete clean two-entry file where the fused
parse agrees with grouping followed by per-group processing. -/
theorem claim_C5_witness :
    parse_dsl_file
        ⟨["a", "b", "c", "五", "wǔ", "[m]пять[/m]", "六", "liù", "[m]шесть[/m]"],
          false⟩ false
      = (fileGroups
          ["a", "b", "c", "五", "wǔ", "[m]пять[/m]", "六", "liù", "[m]шесть[/m]"]).filterMap
          (entryOf false) :=
  (claim_C5 "" "" "" "" [] []
    ⟨["a", "b", "c", "五", "wǔ", "[m]пять[/m]", "六", "liù", "[m]шесть[/m]"], false⟩
    false).2.2.2.2.2.2.2 rfl (by decide)

end Bkrs
